import Mathlib

/-!
Verification development for the `save_video` element of sophon-stream
(src/element/tools/save_video/src/save_video.cc and include/save_video.h).

The definitions below are a shallow embedding of the element's pure algorithmic
core: per-channel trigger counting, session lifecycle with event aggregation,
alarm type resolution, URL construction, the URL parser, and the retention
quota pass.  Side effects (snapshot writes, alarm posts, file removals) are
made explicit as effect lists; machine time is a natural-number tick; the
filesystem seen by the retention pass is a list of (path, size, mtime) records.
-/

namespace SaveVideoModel

/-- A detected object; only the class id (`mClassify`) matters to this element. -/
structure Det where
  mClassify : Int
deriving Repr, DecidableEq

/-- Parsed server endpoint (save_video.h lines 39-44). -/
structure ServerEndpoint where
  scheme : String
  host : String
  port : Nat
  path : String
deriving Repr, DecidableEq

/-- One aggregated event of a recording session (save_video.h lines 62-67). -/
structure PendingEvent where
  class_id : Int
  type : Int
  img_path : String
  datetime_str : String
deriving Repr, DecidableEq

/-- Per-channel recording state (save_video.h lines 47-70).  The video writer
handle, width/height/fps are omitted: no claim observes them.  The consecutive
hit counters are an association list mirroring the `unordered_map`. -/
structure ChannelState where
  recording : Bool
  record_end_tp : Nat
  per_class_consecutive_frames : List (Int × Nat)
  pending_video_path : String
  pending_events : List PendingEvent
  suppressed_classes : List Int
deriving Repr, DecidableEq

/-- Type-resolution configuration (save_video.h lines 140-142). -/
structure TypeConfig where
  fixed_type : Option Int
  use_class_id_type : Bool
  type_map : List (Int × Int)
deriving Repr, DecidableEq

/-- The configuration fields driving the trigger/session logic. -/
structure SVConfig where
  save_dir : String
  record_seconds : Nat
  trigger_classes : List Int
  global_min_trigger_frames : Nat
  per_class_min_trigger_frames : List (Int × Nat)
  type_cfg : TypeConfig
deriving Repr, DecidableEq

/-- Environment of one `doWork` call on a valid (non-EOF) frame: the frame's
detections, the current steady-clock tick, whether `startRecording` would
succeed, and the two formatted time strings produced from the wall clock. -/
structure FrameInput where
  dets : List (Option Det)
  now_tp : Nat
  record_ok : Bool
  timestr : String
  dtstr : String
deriving Repr, DecidableEq

/-- One invocation of `postAlarm` as observed by the Event Reporter. -/
structure Alarm where
  img_path : String
  video_path : String
  datetime_str : String
  ty : Int
deriving Repr, DecidableEq

/-- The externally visible effects of one `doWork` call. -/
structure StepEffects where
  snapshots : List String
  alarms : List Alarm
  removed_videos : List String
deriving Repr, DecidableEq

def emptyEffects : StepEffects := ⟨[], [], []⟩

def mergeEffects (a b : StepEffects) : StepEffects :=
  ⟨a.snapshots ++ b.snapshots, a.alarms ++ b.alarms, a.removed_videos ++ b.removed_videos⟩

/-- Association-list lookup (model of `unordered_map::find`). -/
def lookupA {β : Type} : List (Int × β) → Int → Option β
  | [], _ => none
  | p :: rest, k => if p.1 = k then some p.2 else lookupA rest k

/-- Counter read with the `operator[]` default of 0. -/
def lookupCnt (m : List (Int × Nat)) (k : Int) : Nat := (lookupA m k).getD 0

/-- Counter write (model of `unordered_map::operator[] =`). -/
def setCnt : List (Int × Nat) → Int → Nat → List (Int × Nat)
  | [], k, v => [(k, v)]
  | p :: rest, k, v => if p.1 = k then (k, v) :: rest else p :: setCnt rest k v

/-- Set insertion (model of `unordered_set::insert`), keeping insertion order. -/
def insertUnique (l : List Int) (x : Int) : List Int := if x ∈ l then l else l ++ [x]

/-- `fs::path` `operator/` for a relative right-hand side. -/
def pathJoin (a b : String) : String :=
  if a = "" then b else if a.data.getLast? = some '/' then a ++ b else a ++ "/" ++ b

end SaveVideoModel

namespace SaveVideoModel

/-! ### URL parsing (save_video.cc lines 50-61)

`parseUrl` matches the anchored regex `(http|https)://([^/:]+)(?::(\d+))?(/.*)`.
The backtracking search is deterministic here: the scheme is fixed by the
literal prefix, the host is the maximal run of characters other than slash and
colon (nonempty), an optional colon must be followed by a nonempty maximal
digit run and then the path, and the path runs from a slash to the end. -/

def digitsToNat (ds : List Char) : Nat := ds.foldl (fun n c => 10 * n + (c.toNat - 48)) 0

def parseHostRest (scheme : String) (rest : List Char) : Option ServerEndpoint :=
  let host := rest.takeWhile fun c => !(c == '/' || c == ':')
  let r1 := rest.dropWhile fun c => !(c == '/' || c == ':')
  if host = [] then none
  else match r1 with
    | ':' :: r2 =>
      let ds := r2.takeWhile Char.isDigit
      let r3 := r2.dropWhile Char.isDigit
      if ds = [] then none
      else match r3 with
        | '/' :: _ => some ⟨scheme, String.mk host, digitsToNat ds, String.mk r3⟩
        | _ => none
    | '/' :: _ =>
      some ⟨scheme, String.mk host, if scheme = "https" then 443 else 80, String.mk r1⟩
    | _ => none

def parseUrl (url : String) : Option ServerEndpoint :=
  let cs := url.data
  if cs.take 8 = "https://".data then parseHostRest "https" (cs.drop 8)
  else if cs.take 7 = "http://".data then parseHostRest "http" (cs.drop 7)
  else none

/-! ### URL construction (save_video.cc lines 151-164)

`fs::relative(p, root).generic_string()` is modelled lexically on path
components: strip the common component prefix, emit `..` for each remaining
root component, then the remaining file components, joined by slashes. -/

def splitSlash : List Char → List (List Char)
  | [] => [[]]
  | c :: rest =>
    let r := splitSlash rest
    if c = '/' then [] :: r
    else match r with
      | [] => [[c]]
      | g :: gs => (c :: g) :: gs

def splitComponents (s : String) : List String :=
  ((splitSlash s.data).map fun l => String.mk l).filter fun c => c ≠ ""

def stripCommon : List String → List String → List String × List String
  | a :: as, b :: bs => if a = b then stripCommon as bs else (a :: as, b :: bs)
  | as, bs => (as, bs)

def joinSlash : List String → String
  | [] => ""
  | [c] => c
  | c :: rest => c ++ "/" ++ joinSlash rest

def relComponents (p b : List String) : List String :=
  let r := stripCommon p b
  (r.2.map fun _ => "..") ++ r.1

def relativeString (p base : String) : String :=
  let comps := relComponents (splitComponents p) (splitComponents base)
  if comps = [] then "." else joinSlash comps

/-- `SaveVideo::makeUrl` (save_video.cc lines 151-164). -/
def makeUrl (base_file_url save_dir p : String) : String :=
  if base_file_url = "" then p
  else
    let rel := if save_dir = "" then p else relativeString p save_dir
    if base_file_url.data.getLast? = some '/' then base_file_url ++ rel
    else base_file_url ++ "/" ++ rel

/-! ### Type resolution (save_video.cc lines 598-649) -/

/-- Loop of mode 2 and of the fallbacks: first non-null detection with a
nonnegative class id. -/
def firstValid : List (Option Det) → Option Int
  | [] => none
  | none :: rest => firstValid rest
  | some d :: rest => if 0 ≤ d.mClassify then some d.mClassify else firstValid rest

/-- First loop of mode 3: first valid detection whose class id is a mapping key. -/
def firstMapped (m : List (Int × Int)) : List (Option Det) → Option Int
  | [] => none
  | none :: rest => firstMapped m rest
  | some d :: rest =>
    if 0 ≤ d.mClassify then
      match lookupA m d.mClassify with
      | some t => some t
      | none => firstMapped m rest
    else firstMapped m rest

/-- `SaveVideo::resolveType` (save_video.cc lines 598-649). -/
def resolveType (cfg : TypeConfig) (dets : List (Option Det)) : Int :=
  match cfg.fixed_type with
  | some t => t
  | none =>
    if cfg.use_class_id_type then (firstValid dets).getD 0
    else if cfg.type_map ≠ [] then
      match firstMapped cfg.type_map dets with
      | some t => t
      | none => (firstValid dets).getD 0
    else (firstValid dets).getD 0

/-- Specification-side view: the nonnegative class ids of the non-null
detections, in order. -/
def validIds (dets : List (Option Det)) : List Int :=
  dets.filterMap fun od =>
    match od with
    | some d => if 0 ≤ d.mClassify then some d.mClassify else none
    | none => none

/-! ### Channel trigger engine (save_video.cc lines 375-445) -/

/-- The `hasTarget` lambda (lines 376-387). -/
def hasTargetB (cfg : SVConfig) (dets : List (Option Det)) : Bool :=
  if cfg.trigger_classes ≠ [] then
    dets.any fun od =>
      match od with
      | some d => cfg.trigger_classes.contains d.mClassify
      | none => false
  else !dets.isEmpty

/-- The deduplicated per-frame class-id set `frame_class_ids` (lines 396-407),
in first-occurrence order. -/
def frameClassIds (cfg : SVConfig) (dets : List (Option Det)) : List Int :=
  dets.foldl
    (fun acc od =>
      match od with
      | some d =>
        if 0 ≤ d.mClassify ∧ (cfg.trigger_classes = [] ∨ d.mClassify ∈ cfg.trigger_classes)
        then insertUnique acc d.mClassify else acc
      | none => acc)
    []

/-- Threshold for one class: per-class override, else the global value
(lines 412-414). -/
def needOf (cfg : SVConfig) (cid : Int) : Nat :=
  (lookupA cfg.per_class_min_trigger_frames cid).getD cfg.global_min_trigger_frames

/-- Counter bump over the frame's class ids (lines 408-419): each present class
is incremented; a class is newly fired when the counter just reached its
threshold and the class is not suppressed in the open session. -/
def bumpGo (cfg : SVConfig) (sup : List Int) :
    List Int → List (Int × Nat) → List (Int × Nat) × List Int
  | [], m => (m, [])
  | cid :: rest, m =>
    let prev := lookupCnt m cid
    let m1 := setCnt m cid (prev + 1)
    let r := bumpGo cfg sup rest m1
    if needOf cfg cid ≤ prev + 1 ∧ prev < needOf cfg cid ∧ cid ∉ sup then (r.1, cid :: r.2)
    else r

/-- Reset of the tracked classes absent in this frame (lines 420-435); only
existing counter entries are touched, matching the C++ iteration. -/
def resetAbsent (cfg : SVConfig) (fcids : List Int) (m : List (Int × Nat)) :
    List (Int × Nat) :=
  m.map fun p =>
    if (cfg.trigger_classes = [] ∨ p.1 ∈ cfg.trigger_classes) ∧ p.1 ∉ fcids
    then (p.1, 0) else p

/-- The no-target branch (lines 436-445): zero the filter classes, or clear
the whole map when the filter is empty. -/
def resetNoTarget (cfg : SVConfig) (m : List (Int × Nat)) : List (Int × Nat) :=
  if cfg.trigger_classes ≠ [] then
    cfg.trigger_classes.foldl (fun acc cid => setCnt acc cid 0) m
  else []

/-- One frame of the Channel Trigger Engine: returns the updated counters and
the list of newly fired class ids. -/
def triggerUpdate (cfg : SVConfig) (dets : List (Option Det))
    (m : List (Int × Nat)) (sup : List Int) : List (Int × Nat) × List Int :=
  if hasTargetB cfg dets then
    let fcids := frameClassIds cfg dets
    let r := bumpGo cfg sup fcids m
    (resetAbsent cfg fcids r.1, r.2)
  else (resetNoTarget cfg m, [])

/-! ### Recording session manager (save_video.cc lines 447-586) -/

/-- Base path `save_dir/ch_<channel>/<timestr>_type<type>` (lines 474-478). -/
def segBase (cfg : SVConfig) (ch : Int) (timestr : String) (ty : Int) : String :=
  pathJoin (pathJoin cfg.save_dir ("ch_" ++ toString ch)) (timestr ++ "_type" ++ toString ty)

/-- Per-class snapshot path `save_dir/ch_<channel>/<timestr>_cls<cid>_type<type>.jpg`
(lines 519 and 535). -/
def clsImgPath (cfg : SVConfig) (ch : Int) (timestr : String) (cid ty : Int) : String :=
  pathJoin (pathJoin cfg.save_dir ("ch_" ++ toString ch))
    (timestr ++ "_cls" ++ toString cid ++ "_type" ++ toString ty ++ ".jpg")

/-- Snapshot path of the idx-th recorded class: on session open the first class
uses the base name (line 516), all others the cls-tagged name. -/
def eventImgPath (cfg : SVConfig) (ch : Int) (timestr base : String) (ty : Int)
    (firstUsesBase : Bool) (idx : Nat) (cid : Int) : String :=
  if firstUsesBase ∧ idx = 0 then base ++ ".jpg" else clsImgPath cfg ch timestr cid ty

/-- The per-class loop appending pending events and suppressing classes
(lines 512-527 and 530-542); returns the updated state and the snapshot paths
written, in order. -/
def addEventsGo (cfg : SVConfig) (ch : Int) (timestr dtstr base : String) (ty : Int)
    (firstUsesBase : Bool) : List Int → Nat → ChannelState → ChannelState × List String
  | [], _, st => (st, [])
  | cid :: rest, idx, st =>
    let imgPath := eventImgPath cfg ch timestr base ty firstUsesBase idx cid
    let st1 := { st with
      pending_events := st.pending_events ++ [⟨cid, ty, imgPath, dtstr⟩],
      suppressed_classes := insertUnique st.suppressed_classes cid }
    let r := addEventsGo cfg ch timestr dtstr base ty firstUsesBase rest (idx + 1) st1
    (r.1, imgPath :: r.2)

/-- Session finalize (save_video.cc lines 551-584): stop recording; with no
pending events delete the segment file, otherwise post one alarm per pending
event sharing the segment path; clear events and suppressed classes. -/
def finalizeSession (st : ChannelState) : ChannelState × StepEffects :=
  let st1 := { st with recording := false, pending_events := [], suppressed_classes := [] }
  if st.pending_events = [] then
    (st1, ⟨[], [], if st.pending_video_path = "" then [] else [st.pending_video_path]⟩)
  else
    (st1,
     ⟨[],
      st.pending_events.map fun ev =>
        ⟨ev.img_path, st.pending_video_path, ev.datetime_str, ev.type⟩,
      []⟩)

/-- Trigger handling of one `doWork` call (lines 389-546): counter update,
then, when classes newly fired, session open (with its failure fallback) or
event aggregation into the open session. -/
def stepTrigger (cfg : SVConfig) (ch : Int) (st : ChannelState) (inp : FrameInput) :
    ChannelState × StepEffects :=
  let r := triggerUpdate cfg inp.dets st.per_class_consecutive_frames st.suppressed_classes
  let newly := r.2
  let st0 := { st with per_class_consecutive_frames := r.1 }
  if newly = [] then (st0, emptyEffects)
  else
    let resolved := resolveType cfg.type_cfg inp.dets
    let base := segBase cfg ch inp.timestr resolved
    let classes_to_add := newly.filter fun cid => ¬ (0 ≤ cid ∧ cid ∈ st0.suppressed_classes)
    if st0.recording = false then
      let vidPath := base ++ ".mp4"
      if inp.record_ok then
        let st1 := { st0 with
          recording := true,
          record_end_tp := inp.now_tp + cfg.record_seconds,
          pending_video_path := vidPath,
          pending_events := [],
          suppressed_classes := [] }
        let r2 := addEventsGo cfg ch inp.timestr inp.dtstr base resolved true classes_to_add 0 st1
        (r2.1, ⟨r2.2, [], []⟩)
      else
        let st1 := { st0 with
          pending_video_path := vidPath,
          pending_events := [],
          suppressed_classes := [] }
        let mainImg := base ++ ".jpg"
        (st1,
         ⟨[mainImg],
          classes_to_add.map fun _ => ⟨mainImg, "", inp.dtstr, resolved⟩,
          []⟩)
    else
      let r2 := addEventsGo cfg ch inp.timestr inp.dtstr base resolved false classes_to_add 0 st0
      (r2.1, ⟨r2.2, [], []⟩)

/-- One full `doWork` call on a valid frame: trigger handling, then the
recording continuation with finalize once the deadline has passed
(lines 548-586). -/
def step (cfg : SVConfig) (ch : Int) (st : ChannelState) (inp : FrameInput) :
    ChannelState × StepEffects :=
  let r := stepTrigger cfg ch st inp
  if r.1.recording = true ∧ r.1.record_end_tp ≤ inp.now_tp then
    let f := finalizeSession r.1
    (f.1, mergeEffects r.2 f.2)
  else r

/-- A freshly created `ChannelState` (save_video.h lines 47-70 member defaults). -/
def initChannelState : ChannelState := ⟨false, 0, [], "", [], []⟩

/-- The channel state after a sequence of valid frames, starting from the
lazily created fresh state. -/
def runFrames (cfg : SVConfig) (ch : Int) (inputs : List FrameInput) : ChannelState :=
  inputs.foldl (fun st inp => (step cfg ch st inp).1) initChannelState

/-- The newly-fired lists of a sequence of frames fed to the trigger engine
only (no session open, so the suppressed set stays empty). -/
def newlyTrace (cfg : SVConfig) (frames : List (List (Option Det))) : List (List Int) :=
  (frames.foldl
    (fun (acc : List (Int × Nat) × List (List Int)) dets =>
      let r := triggerUpdate cfg dets acc.1 []
      (r.1, acc.2 ++ [r.2]))
    ([], [])).2

/-! ### Retention quota pass (save_video.cc lines 687-719) -/

/-- One file as seen by the retention scan: path, size in bytes, last-modified
time. -/
structure FsFile where
  path : String
  size : Nat
  mtime : Nat
deriving Repr, DecidableEq

def totalSize (files : List FsFile) : Nat := (files.map FsFile.size).sum

/-- Oldest-first insertion (model of the `std::sort` comparator on
last-modified time, lines 705-707). -/
def insertByMtime (f : FsFile) : List FsFile → List FsFile
  | [] => [f]
  | g :: rest => if f.mtime ≤ g.mtime then f :: g :: rest else g :: insertByMtime f rest

def sortByMtime (l : List FsFile) : List FsFile := l.foldr insertByMtime []

/-- Deletion loop (lines 708-717): delete in order, decrement the running
total without going below zero, stop as soon as the total is within quota.
Returns the deleted files in deletion order and the final running total. -/
def quotaEvict (quota : Nat) : Nat → List FsFile → List FsFile × Nat
  | total, [] => ([], total)
  | total, f :: rest =>
    let total1 := total - f.size
    if total1 ≤ quota then ([f], total1)
    else
      let r := quotaEvict quota total1 rest
      (f :: r.1, r.2)

/-- One quota pass over the scanned file set (lines 687-719), with the byte
budget `quota`.  Nothing is deleted unless the scanned total strictly exceeds
the budget. -/
def quotaPass (quota : Nat) (files : List FsFile) : List FsFile × Nat :=
  let total := totalSize files
  if quota < total then quotaEvict quota total (sortByMtime files)
  else ([], total)

/-! ### Initialization and alarm posting (save_video.cc lines 166-202, 204-218) -/

inductive ErrorCode where
  | SUCCESS
  | PARSE_CONFIGURE_FAIL
deriving Repr, DecidableEq

/-- The raw configuration fields of `initInternal` that decide the returned
error code and the endpoint assignment (save_video.cc lines 204-218); all
remaining fields only store clamped values and can affect neither. -/
structure RawConfig where
  is_object : Bool
  server_url : Option String
  save_dir : Option String
deriving Repr, DecidableEq

/-- `SaveVideo::initInternal` control flow (lines 204-218): fail unless the
configuration is an object, parse the (possibly absent, hence empty) server
URL into the optional endpoint, then fail when `save_dir` is missing. -/
def initInternal (cfg : RawConfig) : ErrorCode × Option ServerEndpoint :=
  if cfg.is_object = false then (ErrorCode.PARSE_CONFIGURE_FAIL, none)
  else
    let ep := parseUrl (cfg.server_url.getD "")
    match cfg.save_dir with
    | none => (ErrorCode.PARSE_CONFIGURE_FAIL, ep)
    | some _ => (ErrorCode.SUCCESS, ep)

/-- Fixed identity fields of the alarm protocol. -/
structure ProtoConfig where
  device_id : String
  device_ip : String
  safety_id : String
  safety_name : String
  warning : String
  video_url_field : String
deriving Repr, DecidableEq

/-- The JSON body built by `postAlarm` (save_video.cc lines 175-190). -/
structure AlarmMessage where
  deviceId : String
  deviceIp : String
  safetyId : String
  safetyName : String
  warning : String
  ty : Int
  safetyUrl : String
  brakeUrl : String
  datatime : String
  imgUrl : String
deriving Repr, DecidableEq

/-- `SaveVideo::postAlarm` (save_video.cc lines 166-202) as the message it
sends: with no parsed endpoint it returns at once and sends nothing. -/
def postAlarm (endpoint : Option ServerEndpoint) (proto : ProtoConfig)
    (base_file_url save_dir imgPath videoPath dtstr : String) (resolved : Int) :
    Option AlarmMessage :=
  match endpoint with
  | none => none
  | some _ =>
    some
      { deviceId := proto.device_id
        deviceIp := proto.device_ip
        safetyId := proto.safety_id
        safetyName := proto.safety_name
        warning := proto.warning
        ty := resolved
        safetyUrl := if proto.video_url_field = "safetyUrl"
          then makeUrl base_file_url save_dir videoPath else ""
        brakeUrl := if proto.video_url_field = "safetyUrl"
          then "" else makeUrl base_file_url save_dir videoPath
        datatime := dtstr
        imgUrl := makeUrl base_file_url save_dir imgPath }

/-- The state invariant maintained by the frame loop: pending-event class ids
are distinct, every pending event's class is suppressed, and an open session
has a nonempty segment path. -/
def GoodState (st : ChannelState) : Prop :=
  (st.pending_events.map PendingEvent.class_id).Nodup ∧
  (∀ ev ∈ st.pending_events, ev.class_id ∈ st.suppressed_classes) ∧
  (st.recording = true → st.pending_video_path ≠ "")

/-- Sample configuration used in concrete witness computations. -/
def sampleCfg : SVConfig := ⟨"/data", 5, [], 1, [], ⟨none, false, []⟩⟩

/-- A frame with detections of classes 1 and 2 and a successful recorder. -/
def sampleOpen : FrameInput := ⟨[some ⟨1⟩, some ⟨2⟩], 0, true, "20250101_000000", "2025-01-01 00:00:00"⟩

/-- The same triggering frame with a failing recorder. -/
def sampleOpenFail : FrameInput :=
  ⟨[some ⟨1⟩, some ⟨2⟩], 0, false, "20250101_000000", "2025-01-01 00:00:00"⟩

/-- A later empty frame past the recording deadline. -/
def sampleLater : FrameInput := ⟨[], 10, true, "20250101_000010", "2025-01-01 00:00:10"⟩

/-- A later frame with class 1 still present, past the recording deadline. -/
def sampleSecond : FrameInput :=
  ⟨[some ⟨1⟩], 10, true, "20250101_000010", "2025-01-01 00:00:10"⟩

/-! ## Lemmas -/

theorem firstValid_eq_head (dets : List (Option Det)) :
    firstValid dets = (validIds dets).head? := by
  induction dets with
  | nil => rfl
  | cons od rest ih =>
    cases od with
    | none => simpa [firstValid, validIds] using ih
    | some d =>
      by_cases h : 0 ≤ d.mClassify
      · simp [firstValid, validIds, h]
      · simpa [firstValid, validIds, h] using ih

theorem firstMapped_eq_head (m : List (Int × Int)) (dets : List (Option Det)) :
    firstMapped m dets =
      (((validIds dets).filter fun c => (lookupA m c).isSome).head?).bind (lookupA m) := by
  induction dets with
  | nil => rfl
  | cons od rest ih =>
    cases od with
    | none => simpa [firstMapped, validIds] using ih
    | some d =>
      by_cases h : 0 ≤ d.mClassify
      · cases hm : lookupA m d.mClassify with
        | none => simpa [firstMapped, validIds, h, hm] using ih
        | some t => simp [firstMapped, validIds, h, hm]
      · simpa [firstMapped, validIds, h] using ih

theorem mem_insertUnique {l : List Int} {x y : Int} :
    y ∈ insertUnique l x ↔ y ∈ l ∨ y = x := by
  by_cases h : x ∈ l
  · simp only [insertUnique, if_pos h]
    constructor
    · exact Or.inl
    · rintro (hy | rfl)
      · exact hy
      · exact h
  · simp [insertUnique, if_neg h]

theorem nodup_insertUnique {l : List Int} {x : Int} (h : l.Nodup) :
    (insertUnique l x).Nodup := by
  by_cases hx : x ∈ l
  · simpa [insertUnique, hx] using h
  · simp only [insertUnique, if_neg hx]
    refine List.Nodup.append h (List.nodup_singleton x) ?_
    intro a ha hb
    simp only [List.mem_singleton] at hb
    exact hx (hb ▸ ha)

theorem frameClassIds_aux (cfg : SVConfig) (dets : List (Option Det)) :
    ∀ acc : List Int, acc.Nodup → (∀ c ∈ acc, 0 ≤ c) →
      (dets.foldl
        (fun acc od =>
          match od with
          | some d =>
            if 0 ≤ d.mClassify ∧ (cfg.trigger_classes = [] ∨ d.mClassify ∈ cfg.trigger_classes)
            then insertUnique acc d.mClassify else acc
          | none => acc)
        acc).Nodup ∧
      (∀ c ∈ dets.foldl
        (fun acc od =>
          match od with
          | some d =>
            if 0 ≤ d.mClassify ∧ (cfg.trigger_classes = [] ∨ d.mClassify ∈ cfg.trigger_classes)
            then insertUnique acc d.mClassify else acc
          | none => acc)
        acc, 0 ≤ c) := by
  induction dets with
  | nil => intro acc h1 h2; exact ⟨h1, h2⟩
  | cons od rest ih =>
    intro acc h1 h2
    cases od with
    | none => exact ih acc h1 h2
    | some d =>
      by_cases hc : 0 ≤ d.mClassify ∧ (cfg.trigger_classes = [] ∨ d.mClassify ∈ cfg.trigger_classes)
      · simp only [List.foldl_cons, hc, if_pos]
        refine ih (insertUnique acc d.mClassify) (nodup_insertUnique h1) ?_
        intro c hcmem
        rcases mem_insertUnique.mp hcmem with h | rfl
        · exact h2 c h
        · exact hc.1
      · simp only [List.foldl_cons, hc, if_neg, not_false_iff]
        exact ih acc h1 h2

theorem frameClassIds_nodup (cfg : SVConfig) (dets : List (Option Det)) :
    (frameClassIds cfg dets).Nodup :=
  (frameClassIds_aux cfg dets [] List.nodup_nil (by simp)).1

theorem frameClassIds_nonneg (cfg : SVConfig) (dets : List (Option Det)) :
    ∀ c ∈ frameClassIds cfg dets, 0 ≤ c :=
  (frameClassIds_aux cfg dets [] List.nodup_nil (by simp)).2

theorem bumpGo_newly (cfg : SVConfig) (sup : List Int) :
    ∀ (l : List Int) (m : List (Int × Nat)),
      (bumpGo cfg sup l m).2.Sublist l ∧ ∀ c ∈ (bumpGo cfg sup l m).2, c ∉ sup := by
  intro l
  induction l with
  | nil => intro m; simp [bumpGo]
  | cons cid rest ih =>
    intro m
    simp only [bumpGo]
    split
    · next hcond =>
      refine ⟨(ih _).1.cons₂ cid, ?_⟩
      intro c hcm
      rcases List.mem_cons.mp hcm with rfl | hcm
      · exact hcond.2.2
      · exact (ih _).2 c hcm
    · exact ⟨((ih _).1).cons cid, (ih _).2⟩

theorem lookupA_setCnt_ne (m : List (Int × Nat)) (k : Int) (v : Nat) (k' : Int) (h : k' ≠ k) :
    lookupA (setCnt m k v) k' = lookupA m k' := by
  induction m with
  | nil =>
    simp only [setCnt, lookupA]
    rw [if_neg (fun hh => h hh.symm)]
  | cons p rest ih =>
    by_cases hp : p.1 = k
    · simp only [setCnt, if_pos hp, lookupA]
      rw [if_neg (by omega), if_neg (by omega)]
    · simp only [setCnt, if_neg hp, lookupA]
      by_cases hp2 : p.1 = k'
      · rw [if_pos hp2, if_pos hp2]
      · rw [if_neg hp2, if_neg hp2]
        exact ih

theorem bumpGo_fst_lookup (cfg : SVConfig) (sup : List Int) (cid : Int) :
    ∀ (l : List Int) (m : List (Int × Nat)), cid ∉ l →
      lookupCnt (bumpGo cfg sup l m).1 cid = lookupCnt m cid := by
  intro l
  induction l with
  | nil => intro m _; simp [bumpGo]
  | cons c rest ih =>
    intro m hm
    have hne : cid ≠ c := fun h => hm (h ▸ List.mem_cons_self c rest)
    have hrest : cid ∉ rest := fun h => hm (List.mem_cons_of_mem c h)
    have hfst : (bumpGo cfg sup (c :: rest) m).1 =
        (bumpGo cfg sup rest (setCnt m c (lookupCnt m c + 1))).1 := by
      simp only [bumpGo]
      split <;> rfl
    rw [hfst, ih _ hrest]
    simp only [lookupCnt]
    rw [lookupA_setCnt_ne _ _ _ _ hne]

theorem lookupCnt_resetAbsent (cfg : SVConfig) (fcids : List Int) (cid : Int)
    (h1 : cfg.trigger_classes = [] ∨ cid ∈ cfg.trigger_classes) (h2 : cid ∉ fcids) :
    ∀ m : List (Int × Nat), lookupCnt (resetAbsent cfg fcids m) cid = 0 := by
  intro m
  induction m with
  | nil => simp [resetAbsent, lookupCnt, lookupA]
  | cons p rest ih =>
    by_cases hp : p.1 = cid
    · have hcond : (cfg.trigger_classes = [] ∨ p.1 ∈ cfg.trigger_classes) ∧ p.1 ∉ fcids := by
        rw [hp]; exact ⟨h1, h2⟩
      simp only [resetAbsent, List.map_cons, if_pos hcond, lookupCnt, lookupA, if_pos hp]
      rfl
    · simp only [resetAbsent, List.map_cons] at *
      split
      · simpa [lookupCnt, lookupA, hp] using ih
      · simpa [lookupCnt, lookupA, hp] using ih

theorem lookupCnt_setZeroFold_notMem (cid : Int) :
    ∀ (l : List Int) (m : List (Int × Nat)), cid ∉ l →
      lookupCnt (l.foldl (fun acc c => setCnt acc c 0) m) cid = lookupCnt m cid := by
  intro l
  induction l with
  | nil => intro m _; rfl
  | cons c rest ih =>
    intro m hm
    have hne : cid ≠ c := fun h => hm (h ▸ List.mem_cons_self c rest)
    have hrest : cid ∉ rest := fun h => hm (List.mem_cons_of_mem c h)
    simp only [List.foldl_cons]
    rw [ih _ hrest]
    simp only [lookupCnt]
    rw [lookupA_setCnt_ne _ _ _ _ hne]

theorem lookupA_setCnt_self (k : Int) (v : Nat) :
    ∀ m : List (Int × Nat), lookupA (setCnt m k v) k = some v := by
  intro m
  induction m with
  | nil => simp [setCnt, lookupA]
  | cons p rest ih =>
    by_cases hp : p.1 = k
    · simp [setCnt, if_pos hp, lookupA]
    · simp only [setCnt, if_neg hp, lookupA]
      exact ih

theorem lookupCnt_setZeroFold_mem (cid : Int) :
    ∀ (l : List Int) (m : List (Int × Nat)), cid ∈ l →
      lookupCnt (l.foldl (fun acc c => setCnt acc c 0) m) cid = 0 := by
  intro l
  induction l with
  | nil => intro m h; simp at h
  | cons c rest ih =>
    intro m hm
    by_cases hrest : cid ∈ rest
    · simp only [List.foldl_cons]
      exact ih _ hrest
    · have hcc : cid = c := by
        rcases List.mem_cons.mp hm with h | h
        · exact h
        · exact absurd h hrest
      subst hcc
      simp only [List.foldl_cons]
      rw [lookupCnt_setZeroFold_notMem cid rest _ hrest]
      simp [lookupCnt, lookupA_setCnt_self]

theorem getLast?_cons_of_ne_nil {α : Type} {a : α} {l : List α} (h : l ≠ []) :
    (a :: l).getLast? = l.getLast? := by
  cases l with
  | nil => exact absurd rfl h
  | cons b rest => exact List.getLast?_cons_cons

theorem getLast?_append_of_ne_nil {α : Type} {l2 : List α} (h : l2 ≠ []) :
    ∀ l1 : List α, (l1 ++ l2).getLast? = l2.getLast? := by
  intro l1
  induction l1 with
  | nil => rfl
  | cons a rest ih =>
    rw [List.cons_append, getLast?_cons_of_ne_nil (by simp [h]), ih]

theorem toDigitsCore_getLast? (b : Nat) :
    ∀ (fuel n : Nat) (ds : List Char), ds ≠ [] →
      (Nat.toDigitsCore b fuel n ds).getLast? = ds.getLast? := by
  intro fuel
  induction fuel with
  | zero => intro n ds _; rfl
  | succ fuel ih =>
    intro n ds h
    simp only [Nat.toDigitsCore]
    split
    · exact getLast?_cons_of_ne_nil h
    · rw [ih (n / b) (Nat.digitChar (n % b) :: ds) (by simp)]
      exact getLast?_cons_of_ne_nil h

theorem toDigits_getLast? (n : Nat) :
    (Nat.toDigits 10 n).getLast? = some (Nat.digitChar (n % 10)) := by
  simp only [Nat.toDigits, Nat.toDigitsCore]
  split
  · rfl
  · rw [toDigitsCore_getLast? 10 n (n / 10) [Nat.digitChar (n % 10)] (by simp)]
    rfl

theorem digitChar_ne_slash {k : Nat} (h : k < 10) : Nat.digitChar k ≠ '/' := by
  interval_cases k <;> decide

theorem natRepr_data_eq (n : Nat) : (Nat.repr n).data = Nat.toDigits 10 n := rfl

theorem natRepr_getLast?_ne_slash (n : Nat) : (Nat.repr n).data.getLast? ≠ some '/' := by
  rw [natRepr_data_eq, toDigits_getLast?]
  intro h
  have h2 : Nat.digitChar (n % 10) = '/' := by injection h
  exact digitChar_ne_slash (Nat.mod_lt n (by decide)) h2

theorem natRepr_data_ne_nil (n : Nat) : (Nat.repr n).data ≠ [] := by
  intro he
  have h := toDigits_getLast? n
  rw [← natRepr_data_eq, he] at h
  simp at h

theorem intToString_data_ne_nil (i : Int) : (toString i).data ≠ [] := by
  cases i with
  | ofNat m => exact natRepr_data_ne_nil m
  | negSucc m =>
    have hd : (toString (Int.negSucc m)).data = '-' :: (Nat.repr (m + 1)).data := rfl
    rw [hd]
    simp

theorem intToString_getLast?_ne_slash (i : Int) : (toString i).data.getLast? ≠ some '/' := by
  cases i with
  | ofNat m => exact natRepr_getLast?_ne_slash m
  | negSucc m =>
    have hd : (toString (Int.negSucc m)).data = '-' :: (Nat.repr (m + 1)).data := rfl
    rw [hd, getLast?_cons_of_ne_nil (natRepr_data_ne_nil (m + 1))]
    exact natRepr_getLast?_ne_slash (m + 1)

theorem pathJoin_eq (a b : String) (h1 : a ≠ "") (h2 : a.data.getLast? ≠ some '/') :
    pathJoin a b = a ++ "/" ++ b := by
  simp [pathJoin, h1, h2]

theorem string_append_ne_empty_right (s t : String) (h : t.data ≠ []) : s ++ t ≠ "" := by
  intro he
  have h2 : s.data ++ t.data = [] := by
    rw [← String.data_append, he]
  exact h (List.append_eq_nil.mp h2).2

theorem stripCommon_append : ∀ b s : List String, stripCommon (b ++ s) b = (s, []) := by
  intro b
  induction b with
  | nil => intro s; cases s <;> rfl
  | cons a as ih => intro s; simpa [stripCommon] using ih s

theorem mem_insertByMtime {f x : FsFile} {l : List FsFile} :
    x ∈ insertByMtime f l ↔ x = f ∨ x ∈ l := by
  induction l with
  | nil => simp [insertByMtime]
  | cons g rest ih =>
    by_cases h : f.mtime ≤ g.mtime
    · simp [insertByMtime, h]
    · simp [insertByMtime, h, ih]; tauto

theorem pairwise_insertByMtime {f : FsFile} {l : List FsFile}
    (h : l.Pairwise fun a b => a.mtime ≤ b.mtime) :
    (insertByMtime f l).Pairwise fun a b => a.mtime ≤ b.mtime := by
  induction l with
  | nil => simp [insertByMtime]
  | cons g rest ih =>
    rcases List.pairwise_cons.mp h with ⟨hg, hrest⟩
    by_cases hle : f.mtime ≤ g.mtime
    · rw [insertByMtime, if_pos hle]
      refine List.pairwise_cons.mpr ⟨?_, h⟩
      intro x hx
      rcases List.mem_cons.mp hx with hx | hx
      · subst hx; exact hle
      · exact le_trans hle (hg x hx)
    · rw [insertByMtime, if_neg hle]
      refine List.pairwise_cons.mpr ⟨?_, ih hrest⟩
      intro x hx
      rcases mem_insertByMtime.mp hx with hx | hx
      · subst hx; omega
      · exact hg x hx

theorem perm_insertByMtime (f : FsFile) (l : List FsFile) :
    (insertByMtime f l).Perm (f :: l) := by
  induction l with
  | nil => simp [insertByMtime]
  | cons g rest ih =>
    by_cases h : f.mtime ≤ g.mtime
    · simp [insertByMtime, h]
    · simp only [insertByMtime, h, if_false]
      exact ((ih.cons g).trans (List.Perm.swap f g rest))

theorem perm_sortByMtime (l : List FsFile) : (sortByMtime l).Perm l := by
  induction l with
  | nil => simp [sortByMtime]
  | cons f rest ih =>
    have : sortByMtime (f :: rest) = insertByMtime f (sortByMtime rest) := rfl
    rw [this]
    exact (perm_insertByMtime f (sortByMtime rest)).trans (ih.cons f)

theorem pairwise_sortByMtime (l : List FsFile) :
    (sortByMtime l).Pairwise fun a b => a.mtime ≤ b.mtime := by
  induction l with
  | nil => simp [sortByMtime]
  | cons f rest ih => exact pairwise_insertByMtime ih

theorem quotaEvict_sublist (quota : Nat) :
    ∀ (total : Nat) (l : List FsFile), (quotaEvict quota total l).1.Sublist l := by
  intro total l
  induction l generalizing total with
  | nil => simp [quotaEvict]
  | cons f rest ih =>
    simp only [quotaEvict]
    split
    · exact (List.nil_sublist rest).cons₂ f
    · exact (ih _).cons₂ f

theorem quotaEvict_total (quota : Nat) :
    ∀ (total : Nat) (l : List FsFile),
      (quotaEvict quota total l).2 = total - totalSize (quotaEvict quota total l).1 := by
  intro total l
  induction l generalizing total with
  | nil => simp [quotaEvict, totalSize]
  | cons f rest ih =>
    simp only [quotaEvict]
    split
    · simp [totalSize]
    · simp only [totalSize, List.map_cons, List.sum_cons]
      rw [ih (total - f.size)]
      simp [totalSize, Nat.sub_sub]

theorem quotaEvict_le_or_all (quota : Nat) :
    ∀ (total : Nat) (l : List FsFile),
      (quotaEvict quota total l).2 ≤ quota ∨ (quotaEvict quota total l).1 = l := by
  intro total l
  induction l generalizing total with
  | nil => right; simp [quotaEvict]
  | cons f rest ih =>
    simp only [quotaEvict]
    split
    · left; assumption
    · rcases ih (total - f.size) with h | h
      · left; exact h
      · right; simpa using h

theorem triggerUpdate_newly (cfg : SVConfig) (dets : List (Option Det))
    (m : List (Int × Nat)) (sup : List Int) :
    (triggerUpdate cfg dets m sup).2.Nodup ∧
    (∀ c ∈ (triggerUpdate cfg dets m sup).2, c ∉ sup) ∧
    (∀ c ∈ (triggerUpdate cfg dets m sup).2, 0 ≤ c) := by
  simp only [triggerUpdate]
  split
  · have hb := bumpGo_newly cfg sup (frameClassIds cfg dets) m
    exact ⟨List.Nodup.sublist hb.1 (frameClassIds_nodup cfg dets), hb.2,
      fun c hc => frameClassIds_nonneg cfg dets c (hb.1.subset hc)⟩
  · simp

theorem addEventsGo_fields (cfg : SVConfig) (ch : Int) (timestr dtstr base : String)
    (ty : Int) (fb : Bool) :
    ∀ (adds : List Int) (idx : Nat) (st : ChannelState),
      (addEventsGo cfg ch timestr dtstr base ty fb adds idx st).1.recording = st.recording ∧
      (addEventsGo cfg ch timestr dtstr base ty fb adds idx st).1.record_end_tp =
        st.record_end_tp ∧
      (addEventsGo cfg ch timestr dtstr base ty fb adds idx st).1.pending_video_path =
        st.pending_video_path ∧
      (addEventsGo cfg ch timestr dtstr base ty fb adds idx st).1.per_class_consecutive_frames =
        st.per_class_consecutive_frames := by
  intro adds
  induction adds with
  | nil => intro idx st; exact ⟨rfl, rfl, rfl, rfl⟩
  | cons cid rest ih =>
    intro idx st
    exact ih (idx + 1) _

theorem addEventsGo_inv (cfg : SVConfig) (ch : Int) (timestr dtstr base : String)
    (ty : Int) (fb : Bool) :
    ∀ (adds : List Int) (idx : Nat) (st : ChannelState),
      adds.Nodup → (∀ c ∈ adds, c ∉ st.suppressed_classes) →
      (st.pending_events.map PendingEvent.class_id).Nodup →
      (∀ ev ∈ st.pending_events, ev.class_id ∈ st.suppressed_classes) →
      ((addEventsGo cfg ch timestr dtstr base ty fb adds idx st).1.pending_events.map
          PendingEvent.class_id).Nodup ∧
      ∀ ev ∈ (addEventsGo cfg ch timestr dtstr base ty fb adds idx st).1.pending_events,
        ev.class_id ∈
          (addEventsGo cfg ch timestr dtstr base ty fb adds idx st).1.suppressed_classes := by
  intro adds
  induction adds with
  | nil => intro idx st _ _ h3 h4; exact ⟨h3, h4⟩
  | cons cid rest ih =>
    intro idx st h1 h2 h3 h4
    have hcid_sup : cid ∉ st.suppressed_classes := h2 cid (List.mem_cons_self cid rest)
    have hcid_rest : cid ∉ rest := (List.nodup_cons.mp h1).1
    refine ih (idx + 1) _ (List.nodup_cons.mp h1).2 ?_ ?_ ?_
    · intro c hc
      intro hmem
      rcases mem_insertUnique.mp hmem with hmem | rfl
      · exact h2 c (List.mem_cons_of_mem cid hc) hmem
      · exact hcid_rest hc
    · simp only [List.map_append, List.map_cons, List.map_nil]
      rw [List.nodup_append]
      refine ⟨h3, List.nodup_singleton _, ?_⟩
      intro a ha hb
      simp only [List.mem_singleton] at hb
      subst hb
      rcases List.mem_map.mp ha with ⟨ev, hev, hevc⟩
      exact hcid_sup (hevc ▸ h4 ev hev)
    · intro ev hev
      rcases List.mem_append.mp hev with hev | hev
      · exact mem_insertUnique.mpr (Or.inl (h4 ev hev))
      · simp only [List.mem_singleton] at hev
        subst hev
        exact mem_insertUnique.mpr (Or.inr rfl)

theorem addEventsGo_snapshots (cfg : SVConfig) (ch : Int) (timestr dtstr base : String)
    (ty : Int) (fb : Bool) :
    ∀ (adds : List Int) (idx : Nat) (st : ChannelState),
      ∀ p ∈ (addEventsGo cfg ch timestr dtstr base ty fb adds idx st).2,
        p = base ++ ".jpg" ∨ ∃ cid ∈ adds, p = clsImgPath cfg ch timestr cid ty := by
  intro adds
  induction adds with
  | nil => intro idx st p hp; simp [addEventsGo] at hp
  | cons cid rest ih =>
    intro idx st p hp
    simp only [addEventsGo] at hp
    rcases List.mem_cons.mp hp with rfl | hp
    · by_cases hb : fb = true ∧ idx = 0
      · left; simp [eventImgPath, hb]
      · right
        refine ⟨cid, List.mem_cons_self cid rest, ?_⟩
        simp only [eventImgPath]
        rw [if_neg (by simpa using hb)]
    · rcases ih (idx + 1) _ p hp with h | ⟨c, hc, hcp⟩
      · exact Or.inl h
      · exact Or.inr ⟨c, List.mem_cons_of_mem cid hc, hcp⟩

theorem goodState_init : GoodState initChannelState := by
  refine ⟨by simp [initChannelState], by simp [initChannelState], by simp [initChannelState]⟩

theorem goodState_stepTrigger (cfg : SVConfig) (ch : Int) (st : ChannelState)
    (inp : FrameInput) (h : GoodState st) : GoodState (stepTrigger cfg ch st inp).1 := by
  obtain ⟨hnd, hsub, hrp⟩ := h
  have htu := triggerUpdate_newly cfg inp.dets st.per_class_consecutive_frames
    st.suppressed_classes
  simp only [stepTrigger]
  by_cases hn :
      (triggerUpdate cfg inp.dets st.per_class_consecutive_frames st.suppressed_classes).2 = []
  · rw [if_pos hn]
    exact ⟨hnd, hsub, hrp⟩
  · rw [if_neg hn]
    by_cases hrec : st.recording = false
    · rw [if_pos hrec]
      by_cases hok : inp.record_ok = true
      · rw [if_pos hok]
        refine ⟨?_, ?_, ?_⟩
        · refine (addEventsGo_inv _ _ _ _ _ _ _ _ _ _ ?_ ?_ ?_ ?_).1
          · exact List.Nodup.filter _ htu.1
          · intro c _; simp
          · simp
          · simp
        · refine (addEventsGo_inv _ _ _ _ _ _ _ _ _ _ ?_ ?_ ?_ ?_).2
          · exact List.Nodup.filter _ htu.1
          · intro c _; simp
          · simp
          · simp
        · intro _
          rw [(addEventsGo_fields cfg ch inp.timestr inp.dtstr _ _ _ _ _ _).2.2.1]
          exact string_append_ne_empty_right _ _ (by decide)
      · rw [if_neg hok]
        refine ⟨by simp, by simp, ?_⟩
        intro hcontra
        simp only at hcontra
        rw [hrec] at hcontra
        exact absurd hcontra (by decide)
    · rw [if_neg hrec]
      have hrect : st.recording = true := by
        cases hsr : st.recording
        · exact absurd hsr hrec
        · rfl
      refine ⟨?_, ?_, ?_⟩
      · refine (addEventsGo_inv _ _ _ _ _ _ _ _ _ _ ?_ ?_ ?_ ?_).1
        · exact List.Nodup.filter _ htu.1
        · intro c hc
          exact htu.2.1 c (List.mem_of_mem_filter hc)
        · exact hnd
        · exact hsub
      · refine (addEventsGo_inv _ _ _ _ _ _ _ _ _ _ ?_ ?_ ?_ ?_).2
        · exact List.Nodup.filter _ htu.1
        · intro c hc
          exact htu.2.1 c (List.mem_of_mem_filter hc)
        · exact hnd
        · exact hsub
      · intro _
        rw [(addEventsGo_fields cfg ch inp.timestr inp.dtstr _ _ _ _ _ _).2.2.1]
        exact hrp hrect

theorem goodState_finalize (st : ChannelState) : GoodState (finalizeSession st).1 := by
  simp only [finalizeSession]
  split <;> exact ⟨by simp, by simp, by simp⟩

theorem goodState_step (cfg : SVConfig) (ch : Int) (st : ChannelState) (inp : FrameInput)
    (h : GoodState st) : GoodState (step cfg ch st inp).1 := by
  simp only [step]
  split
  · exact goodState_finalize _
  · exact goodState_stepTrigger cfg ch st inp h

theorem goodState_runFrames (cfg : SVConfig) (ch : Int) (inputs : List FrameInput) :
    GoodState (runFrames cfg ch inputs) := by
  suffices h : ∀ (l : List FrameInput) (st : ChannelState), GoodState st →
      GoodState (l.foldl (fun st inp => (step cfg ch st inp).1) st) by
    exact h inputs initChannelState goodState_init
  intro l
  induction l with
  | nil => intro st hst; exact hst
  | cons inp rest ih =>
    intro st hst
    exact ih _ (goodState_step cfg ch st inp hst)

theorem stepTrigger_removed_nil (cfg : SVConfig) (ch : Int) (st : ChannelState)
    (inp : FrameInput) : (stepTrigger cfg ch st inp).2.removed_videos = [] := by
  simp only [stepTrigger]
  by_cases hn :
      (triggerUpdate cfg inp.dets st.per_class_consecutive_frames st.suppressed_classes).2 = []
  · rw [if_pos hn]; rfl
  · rw [if_neg hn]
    by_cases hrec : st.recording = false
    · rw [if_pos hrec]
      by_cases hok : inp.record_ok = true
      · rw [if_pos hok]
      · rw [if_neg hok]
    · rw [if_neg hrec]

theorem stepTrigger_alarms (cfg : SVConfig) (ch : Int) (st : ChannelState) (inp : FrameInput) :
    (stepTrigger cfg ch st inp).2.alarms = [] ∨
      (stepTrigger cfg ch st inp).1.recording = false := by
  simp only [stepTrigger]
  by_cases hn :
      (triggerUpdate cfg inp.dets st.per_class_consecutive_frames st.suppressed_classes).2 = []
  · rw [if_pos hn]; left; rfl
  · rw [if_neg hn]
    by_cases hrec : st.recording = false
    · rw [if_pos hrec]
      by_cases hok : inp.record_ok = true
      · rw [if_pos hok]; left; rfl
      · rw [if_neg hok]; right; simpa using hrec
    · rw [if_neg hrec]; left; rfl

theorem step_path_eq (cfg : SVConfig) (ch : Int) (st : ChannelState) (inp : FrameInput) :
    (step cfg ch st inp).1.pending_video_path =
      (stepTrigger cfg ch st inp).1.pending_video_path := by
  simp only [step]
  split
  · simp only [finalizeSession]
    split <;> rfl
  · rfl

theorem step_snapshots_eq (cfg : SVConfig) (ch : Int) (st : ChannelState) (inp : FrameInput) :
    (step cfg ch st inp).2.snapshots = (stepTrigger cfg ch st inp).2.snapshots := by
  simp only [step]
  split
  · simp only [finalizeSession, mergeEffects]
    split <;> simp
  · rfl

theorem segBase_eq (cfg : SVConfig) (ch : Int) (timestr : String) (ty : Int)
    (h1 : cfg.save_dir ≠ "") (h2 : cfg.save_dir.data.getLast? ≠ some '/') :
    segBase cfg ch timestr ty =
      cfg.save_dir ++ "/" ++ ("ch_" ++ toString ch) ++ "/" ++
        (timestr ++ "_type" ++ toString ty) := by
  have hinner : pathJoin cfg.save_dir ("ch_" ++ toString ch) =
      cfg.save_dir ++ "/" ++ ("ch_" ++ toString ch) := pathJoin_eq _ _ h1 h2
  have hdir_ne : ("ch_" ++ toString ch).data ≠ [] := by
    rw [String.data_append]
    simp
  have hne : cfg.save_dir ++ "/" ++ ("ch_" ++ toString ch) ≠ "" :=
    string_append_ne_empty_right _ _ hdir_ne
  have hlast : (cfg.save_dir ++ "/" ++ ("ch_" ++ toString ch)).data.getLast? ≠ some '/' := by
    rw [String.data_append, getLast?_append_of_ne_nil hdir_ne, String.data_append,
      getLast?_append_of_ne_nil (intToString_data_ne_nil ch)]
    exact intToString_getLast?_ne_slash ch
  rw [segBase, hinner, pathJoin_eq _ _ hne hlast]

theorem clsImgPath_eq (cfg : SVConfig) (ch : Int) (timestr : String) (cid ty : Int)
    (h1 : cfg.save_dir ≠ "") (h2 : cfg.save_dir.data.getLast? ≠ some '/') :
    clsImgPath cfg ch timestr cid ty =
      cfg.save_dir ++ "/" ++ ("ch_" ++ toString ch) ++ "/" ++
        (timestr ++ "_cls" ++ toString cid ++ "_type" ++ toString ty ++ ".jpg") := by
  have hinner : pathJoin cfg.save_dir ("ch_" ++ toString ch) =
      cfg.save_dir ++ "/" ++ ("ch_" ++ toString ch) := pathJoin_eq _ _ h1 h2
  have hdir_ne : ("ch_" ++ toString ch).data ≠ [] := by
    rw [String.data_append]
    simp
  have hne : cfg.save_dir ++ "/" ++ ("ch_" ++ toString ch) ≠ "" :=
    string_append_ne_empty_right _ _ hdir_ne
  have hlast : (cfg.save_dir ++ "/" ++ ("ch_" ++ toString ch)).data.getLast? ≠ some '/' := by
    rw [String.data_append, getLast?_append_of_ne_nil hdir_ne, String.data_append,
      getLast?_append_of_ne_nil (intToString_data_ne_nil ch)]
    exact intToString_getLast?_ne_slash ch
  rw [clsImgPath, hinner, pathJoin_eq _ _ hne hlast]

/-! ## Claim theorems -/

/-- C3: Type resolution follows the strict four-tier precedence: a fixed
configured integer always wins; else in use-raw-class-id mode the first
detection with id ≥ 0 is returned (0 if none); else with a mapping configured,
the first valid detection whose id is a mapping key yields the mapped value,
with fallback to the first valid detection's raw id, and 0 when no valid
detection exists; else the first valid detection's raw id, and 0 if none.
Mapping 7 ↦ 2 with detection class 7 gives 2, detection class 9 gives 9, and
no valid detections give 0. -/
theorem c3_type_resolution :
    (∀ (cfg : TypeConfig) (dets : List (Option Det)) (t : Int),
       cfg.fixed_type = some t → resolveType cfg dets = t) ∧
    (∀ (cfg : TypeConfig) (dets : List (Option Det)),
       cfg.fixed_type = none → cfg.use_class_id_type = true →
       resolveType cfg dets = ((validIds dets).head?).getD 0) ∧
    (∀ (cfg : TypeConfig) (dets : List (Option Det)) (c : Int),
       cfg.fixed_type = none → cfg.use_class_id_type = false → cfg.type_map ≠ [] →
       ((validIds dets).filter fun x => (lookupA cfg.type_map x).isSome).head? = some c →
       resolveType cfg dets = (lookupA cfg.type_map c).getD 0) ∧
    (∀ (cfg : TypeConfig) (dets : List (Option Det)),
       cfg.fixed_type = none → cfg.use_class_id_type = false → cfg.type_map ≠ [] →
       (∀ x ∈ validIds dets, lookupA cfg.type_map x = none) → validIds dets ≠ [] →
       resolveType cfg dets = ((validIds dets).head?).getD 0) ∧
    (∀ (cfg : TypeConfig) (dets : List (Option Det)),
       cfg.fixed_type = none → cfg.use_class_id_type = false → validIds dets = [] →
       resolveType cfg dets = 0) ∧
    (∀ (cfg : TypeConfig) (dets : List (Option Det)),
       cfg.fixed_type = none → cfg.use_class_id_type = false → cfg.type_map = [] →
       resolveType cfg dets = ((validIds dets).head?).getD 0) ∧
    (resolveType ⟨none, false, [(7, 2)]⟩ [some ⟨7⟩] = 2 ∧
     resolveType ⟨none, false, [(7, 2)]⟩ [some ⟨9⟩] = 9 ∧
     resolveType ⟨none, false, [(7, 2)]⟩ [] = 0) := by
  refine ⟨?_, ?_, ?_, ?_, ?_, ?_, by decide⟩
  · intro cfg dets t h
    simp [resolveType, h]
  · intro cfg dets h1 h2
    simp [resolveType, h1, h2, firstValid_eq_head]
  · intro cfg dets c h1 h2 h3 hc
    have hmem : c ∈ (validIds dets).filter fun x => (lookupA cfg.type_map x).isSome := by
      cases hf : (validIds dets).filter fun x => (lookupA cfg.type_map x).isSome with
      | nil => rw [hf] at hc; simp at hc
      | cons y ys =>
        rw [hf] at hc
        simp only [List.head?_cons, Option.some.injEq] at hc
        subst hc
        exact List.mem_cons_self _ _
    have hp := (List.mem_filter.mp hmem).2
    obtain ⟨t, ht⟩ := Option.isSome_iff_exists.mp (by simpa using hp)
    simp [resolveType, h1, h2, h3, firstMapped_eq_head, hc, ht]
  · intro cfg dets h1 h2 h3 hall hne
    have hfilter : ((validIds dets).filter fun x => (lookupA cfg.type_map x).isSome) = [] := by
      rw [List.filter_eq_nil_iff]
      intro x hx
      simp [hall x hx]
    simp [resolveType, h1, h2, h3, firstMapped_eq_head, hfilter, firstValid_eq_head]
  · intro cfg dets h1 h2 hv
    by_cases hm : cfg.type_map = [] <;>
      simp [resolveType, h1, h2, hm, firstMapped_eq_head, firstValid_eq_head, hv]
  · intro cfg dets h1 h2 h3
    simp [resolveType, h1, h2, h3, firstValid_eq_head]

/-- C3 witness: the fixed-type tier at a concrete configuration. -/
theorem c3_type_resolution_witness :
    resolveType ⟨some 4, true, [(1, 2)]⟩ [some ⟨9⟩] = 4 :=
  c3_type_resolution.1 ⟨some 4, true, [(1, 2)]⟩ [some ⟨9⟩] 4 rfl

/-- C5: A quota pass over a scanned file set whose total exceeds the positive
byte budget deletes files in oldest-first order of last-modified time,
decrements the running total exactly by the deleted sizes (never below zero,
by Nat subtraction), and terminates with the total within the budget or with
every scanned file removed. -/
theorem c5_quota_pass (quota : Nat) (files : List FsFile)
    (_hq : 0 < quota) (hx : quota < totalSize files) :
    ((quotaPass quota files).2 ≤ quota ∨ (quotaPass quota files).1.length = files.length) ∧
    ((quotaPass quota files).1.Pairwise fun a b => a.mtime ≤ b.mtime) ∧
    (quotaPass quota files).2 = totalSize files - totalSize (quotaPass quota files).1 := by
  have hpass : quotaPass quota files =
      quotaEvict quota (totalSize files) (sortByMtime files) := by
    simp [quotaPass, hx]
  refine ⟨?_, ?_, ?_⟩
  · rw [hpass]
    rcases quotaEvict_le_or_all quota (totalSize files) (sortByMtime files) with h | h
    · left; exact h
    · right
      rw [h]
      exact (perm_sortByMtime files).length_eq
  · rw [hpass]
    exact List.Pairwise.sublist (quotaEvict_sublist quota (totalSize files) (sortByMtime files))
      (pairwise_sortByMtime files)
  · rw [hpass]
    exact quotaEvict_total quota (totalSize files) (sortByMtime files)

/-- C5 witness: a concrete pass with budget 10 over three files totalling 17
bytes. -/
theorem c5_quota_pass_witness :
    0 < 10 ∧ 10 < totalSize [⟨"a", 7, 5⟩, ⟨"b", 6, 2⟩, ⟨"c", 4, 9⟩] ∧
    (((quotaPass 10 [⟨"a", 7, 5⟩, ⟨"b", 6, 2⟩, ⟨"c", 4, 9⟩]).2 ≤ 10 ∨
      (quotaPass 10 [⟨"a", 7, 5⟩, ⟨"b", 6, 2⟩, ⟨"c", 4, 9⟩]).1.length = 3) ∧
     ((quotaPass 10 [⟨"a", 7, 5⟩, ⟨"b", 6, 2⟩, ⟨"c", 4, 9⟩]).1.Pairwise
        fun a b => a.mtime ≤ b.mtime) ∧
     (quotaPass 10 [⟨"a", 7, 5⟩, ⟨"b", 6, 2⟩, ⟨"c", 4, 9⟩]).2 =
       totalSize [⟨"a", 7, 5⟩, ⟨"b", 6, 2⟩, ⟨"c", 4, 9⟩] -
         totalSize (quotaPass 10 [⟨"a", 7, 5⟩, ⟨"b", 6, 2⟩, ⟨"c", 4, 9⟩]).1) :=
  by
  refine ⟨by decide, by decide, ?_⟩
  simpa using c5_quota_pass 10 [⟨"a", 7, 5⟩, ⟨"b", 6, 2⟩, ⟨"c", 4, 9⟩] (by decide) (by decide)

/-- C8: URL construction: with an empty base URL the raw local path is
returned unchanged; otherwise the path is expressed relative to the storage
root and appended to the base URL, as in the concrete example with base
http://x/files, root /data and file /data/a/b.jpg. -/
theorem c8_make_url :
    (∀ save p : String, makeUrl "" save p = p) ∧
    (∀ (base save p : String) (suffix : List String),
       base ≠ "" → base.data.getLast? ≠ some '/' → save ≠ "" → suffix ≠ [] →
       splitComponents p = splitComponents save ++ suffix →
       makeUrl base save p = base ++ "/" ++ joinSlash suffix) ∧
    (makeUrl "http://x/files" "/data" "/data/a/b.jpg" = "http://x/files/a/b.jpg" ∧
     makeUrl "" "/data" "/data/a/b.jpg" = "/data/a/b.jpg") := by
  refine ⟨?_, ?_, by decide⟩
  · intro save p
    simp [makeUrl]
  · intro base save p suffix hb hsl hs hsuf hsplit
    have hrel : relativeString p save = joinSlash suffix := by
      simp [relativeString, relComponents, hsplit, stripCommon_append, hsuf]
    simp [makeUrl, hb, hsl, hs, hrel]

/-- C8 witness: the second conjunct applied at the concrete example. -/
theorem c8_make_url_witness :
    makeUrl "http://x/files" "/data" "/data/a/b.jpg" = "http://x/files" ++ "/" ++
      joinSlash ["a", "b.jpg"] :=
  c8_make_url.2.1 "http://x/files" "/data" "/data/a/b.jpg" ["a", "b.jpg"]
    (by decide) (by decide) (by decide) (by decide) (by decide)

/-- C1: Within one open recording session a class fires at most once: newly
fired classes are never currently suppressed, and along any frame sequence the
pending-event list of a channel never holds two events with the same class id. -/
theorem c1_suppression_invariant (cfg : SVConfig) (ch : Int) (inputs : List FrameInput) :
    ((runFrames cfg ch inputs).pending_events.map PendingEvent.class_id).Nodup ∧
    ∀ (dets : List (Option Det)) (m : List (Int × Nat)) (sup : List Int) (c : Int),
      c ∈ (triggerUpdate cfg dets m sup).2 → c ∉ sup :=
  ⟨(goodState_runFrames cfg ch inputs).1,
   fun dets m sup c hc => (triggerUpdate_newly cfg dets m sup).2.1 c hc⟩

/-- C1 witness: the invariant at a concrete run in which a session opened with
two pending events. -/
theorem c1_suppression_invariant_witness :
    ((runFrames sampleCfg 3 [sampleOpen]).pending_events.map PendingEvent.class_id).Nodup :=
  (c1_suppression_invariant sampleCfg 3 [sampleOpen]).1

/-- C4: At session finalize (reached when the deadline has passed on a state
produced by the frame loop), the segment file is removed iff the pending-event
list is empty; with pending events, one alarm per event is posted in arrival
order carrying the shared segment path and that event's snapshot path, and the
segment file is kept. -/
theorem c4_finalize_deletion (cfg : SVConfig) (ch : Int) (inputs : List FrameInput)
    (inp : FrameInput)
    (hrec : (stepTrigger cfg ch (runFrames cfg ch inputs) inp).1.recording = true)
    (hle : (stepTrigger cfg ch (runFrames cfg ch inputs) inp).1.record_end_tp ≤ inp.now_tp) :
    ((stepTrigger cfg ch (runFrames cfg ch inputs) inp).1.pending_events = [] →
      (step cfg ch (runFrames cfg ch inputs) inp).2.removed_videos =
        [(stepTrigger cfg ch (runFrames cfg ch inputs) inp).1.pending_video_path] ∧
      (stepTrigger cfg ch (runFrames cfg ch inputs) inp).1.pending_video_path ≠ "" ∧
      (step cfg ch (runFrames cfg ch inputs) inp).2.alarms = []) ∧
    ((stepTrigger cfg ch (runFrames cfg ch inputs) inp).1.pending_events ≠ [] →
      (step cfg ch (runFrames cfg ch inputs) inp).2.removed_videos = [] ∧
      (step cfg ch (runFrames cfg ch inputs) inp).2.alarms =
        (stepTrigger cfg ch (runFrames cfg ch inputs) inp).1.pending_events.map
          fun ev => ⟨ev.img_path,
            (stepTrigger cfg ch (runFrames cfg ch inputs) inp).1.pending_video_path,
            ev.datetime_str, ev.type⟩) := by
  have hgs : GoodState (stepTrigger cfg ch (runFrames cfg ch inputs) inp).1 :=
    goodState_stepTrigger cfg ch _ inp (goodState_runFrames cfg ch inputs)
  have hpath : (stepTrigger cfg ch (runFrames cfg ch inputs) inp).1.pending_video_path ≠ "" :=
    hgs.2.2 hrec
  have halarms : (stepTrigger cfg ch (runFrames cfg ch inputs) inp).2.alarms = [] := by
    rcases stepTrigger_alarms cfg ch (runFrames cfg ch inputs) inp with h | h
    · exact h
    · rw [h] at hrec
      exact absurd hrec (by decide)
  have hstep : step cfg ch (runFrames cfg ch inputs) inp =
      ((finalizeSession (stepTrigger cfg ch (runFrames cfg ch inputs) inp).1).1,
       mergeEffects (stepTrigger cfg ch (runFrames cfg ch inputs) inp).2
         (finalizeSession (stepTrigger cfg ch (runFrames cfg ch inputs) inp).1).2) := by
    simp only [step]
    rw [if_pos ⟨hrec, hle⟩]
  constructor
  · intro hpe
    rw [hstep]
    simp only [mergeEffects, finalizeSession]
    rw [if_pos hpe]
    rw [stepTrigger_removed_nil, halarms]
    simp only [List.nil_append]
    rw [if_neg hpath]
    exact ⟨rfl, hpath, trivial⟩
  · intro hpe
    rw [hstep]
    simp only [mergeEffects, finalizeSession]
    rw [if_neg hpe]
    rw [stepTrigger_removed_nil, halarms]
    exact ⟨by simp, by simp⟩

/-- C4 witness: the non-empty branch at a run that opened a session with two
events and then received an empty frame past the deadline. -/
theorem c4_finalize_deletion_witness :
    (step sampleCfg 3 (runFrames sampleCfg 3 [sampleOpen]) sampleLater).2.removed_videos = [] :=
  ((c4_finalize_deletion sampleCfg 3 [sampleOpen] sampleLater
    (by decide) (by decide)).2 (by decide)).1

/-- C6 counterexample: with two newly fired classes and a failing recorder,
the code writes a single shared snapshot, not one snapshot per newly fired
class as the claim states. -/
theorem c6_counterexample :
    (step sampleCfg 0 initChannelState sampleOpenFail).2.snapshots.length = 1 ∧
    (triggerUpdate sampleCfg sampleOpenFail.dets
        initChannelState.per_class_consecutive_frames
        initChannelState.suppressed_classes).2 = [1, 2] := by decide

/-- C6 amended: when classes newly fire and recording-open fails, one shared
snapshot (the base image) is written, the Event Reporter is invoked once per
newly-fired class with that shared snapshot path and an empty video reference,
no session is created, and no suppression is recorded. -/
theorem c6_open_failure (cfg : SVConfig) (ch : Int) (st : ChannelState) (inp : FrameInput)
    (hrec : st.recording = false) (hok : inp.record_ok = false)
    (hn : (triggerUpdate cfg inp.dets st.per_class_consecutive_frames
        st.suppressed_classes).2 ≠ []) :
    (step cfg ch st inp).2.snapshots =
      [segBase cfg ch inp.timestr (resolveType cfg.type_cfg inp.dets) ++ ".jpg"] ∧
    (step cfg ch st inp).2.alarms =
      (triggerUpdate cfg inp.dets st.per_class_consecutive_frames
          st.suppressed_classes).2.map
        (fun _ => ⟨segBase cfg ch inp.timestr (resolveType cfg.type_cfg inp.dets) ++ ".jpg",
          "", inp.dtstr, resolveType cfg.type_cfg inp.dets⟩) ∧
    (step cfg ch st inp).1.recording = false ∧
    (step cfg ch st inp).1.suppressed_classes = [] ∧
    (step cfg ch st inp).1.pending_events = [] ∧
    (step cfg ch st inp).2.removed_videos = [] := by
  have hadds : ((triggerUpdate cfg inp.dets st.per_class_consecutive_frames
        st.suppressed_classes).2.filter
      fun cid => ¬ (0 ≤ cid ∧ cid ∈ st.suppressed_classes)) =
      (triggerUpdate cfg inp.dets st.per_class_consecutive_frames st.suppressed_classes).2 := by
    apply List.filter_eq_self.mpr
    intro c hc
    simp only [decide_eq_true_eq]
    intro hcon
    exact (triggerUpdate_newly cfg inp.dets st.per_class_consecutive_frames
      st.suppressed_classes).2.1 c hc hcon.2
  have hfail : stepTrigger cfg ch st inp =
      ({ st with
          per_class_consecutive_frames := (triggerUpdate cfg inp.dets
            st.per_class_consecutive_frames st.suppressed_classes).1,
          pending_video_path :=
            segBase cfg ch inp.timestr (resolveType cfg.type_cfg inp.dets) ++ ".mp4",
          pending_events := [],
          suppressed_classes := [] },
       ⟨[segBase cfg ch inp.timestr (resolveType cfg.type_cfg inp.dets) ++ ".jpg"],
        ((triggerUpdate cfg inp.dets st.per_class_consecutive_frames
            st.suppressed_classes).2.filter
          fun cid => ¬ (0 ≤ cid ∧ cid ∈ st.suppressed_classes)).map
          fun _ => ⟨segBase cfg ch inp.timestr (resolveType cfg.type_cfg inp.dets) ++ ".jpg",
            "", inp.dtstr, resolveType cfg.type_cfg inp.dets⟩,
        []⟩) := by
    simp only [stepTrigger]
    rw [if_neg hn, if_pos hrec, if_neg (by simp [hok])]
  have hrec1 : (stepTrigger cfg ch st inp).1.recording = false := by
    rw [hfail]
    exact hrec
  have hstep : step cfg ch st inp = stepTrigger cfg ch st inp := by
    have hcond : ¬ ((stepTrigger cfg ch st inp).1.recording = true ∧
        (stepTrigger cfg ch st inp).1.record_end_tp ≤ inp.now_tp) := by
      intro hc
      rw [hrec1] at hc
      exact absurd hc.1 (by decide)
    simp only [step]
    rw [if_neg hcond]
  rw [hstep, hfail]
  refine ⟨rfl, ?_, hrec, rfl, rfl, rfl⟩
  rw [hadds]

/-- C6 witness: the amended behaviour at the concrete failing-recorder frame. -/
theorem c6_open_failure_witness :
    (step sampleCfg 0 initChannelState sampleOpenFail).2.snapshots =
      [segBase sampleCfg 0 sampleOpenFail.timestr
        (resolveType sampleCfg.type_cfg sampleOpenFail.dets) ++ ".jpg"] :=
  (c6_open_failure sampleCfg 0 initChannelState sampleOpenFail rfl rfl (by decide)).1

/-- C7 counterexample: the per-channel directory is named ch_ followed by the
channel id, not channel_ as the claim states: at channel 3 the segment path is
/data/ch_3/... and differs from /data/channel_3/.... -/
theorem c7_counterexample :
    (step sampleCfg 3 initChannelState sampleOpen).1.pending_video_path =
      "/data/ch_3/20250101_000000_type1.mp4" ∧
    (step sampleCfg 3 initChannelState sampleOpen).1.pending_video_path ≠
      "/data/channel_3/20250101_000000_type1.mp4" := by decide

/-- C7 amended: for every session opened on channel c with resolved type n,
the segment path is root/ch_c/ts_type n .mp4 and every snapshot path is either
root/ch_c/ts_type n .jpg or root/ch_c/ts_cls id _type n .jpg for a newly fired
class id, i.e. the per-channel subdirectory is ch_ followed by the channel id. -/
theorem c7_storage_layout (cfg : SVConfig) (ch : Int) (st : ChannelState) (inp : FrameInput)
    (hsd : cfg.save_dir ≠ "") (hsl : cfg.save_dir.data.getLast? ≠ some '/')
    (hrec : st.recording = false) (hok : inp.record_ok = true)
    (hn : (triggerUpdate cfg inp.dets st.per_class_consecutive_frames
        st.suppressed_classes).2 ≠ []) :
    (step cfg ch st inp).1.pending_video_path =
      cfg.save_dir ++ "/" ++ ("ch_" ++ toString ch) ++ "/" ++
        (inp.timestr ++ "_type" ++ toString (resolveType cfg.type_cfg inp.dets)) ++ ".mp4" ∧
    ∀ p ∈ (step cfg ch st inp).2.snapshots,
      p = cfg.save_dir ++ "/" ++ ("ch_" ++ toString ch) ++ "/" ++
            (inp.timestr ++ "_type" ++ toString (resolveType cfg.type_cfg inp.dets)) ++ ".jpg" ∨
      ∃ cid ∈ (triggerUpdate cfg inp.dets st.per_class_consecutive_frames
          st.suppressed_classes).2,
        p = cfg.save_dir ++ "/" ++ ("ch_" ++ toString ch) ++ "/" ++
              (inp.timestr ++ "_cls" ++ toString cid ++ "_type" ++
                toString (resolveType cfg.type_cfg inp.dets) ++ ".jpg") := by
  have hokk : stepTrigger cfg ch st inp =
      ((addEventsGo cfg ch inp.timestr inp.dtstr
          (segBase cfg ch inp.timestr (resolveType cfg.type_cfg inp.dets))
          (resolveType cfg.type_cfg inp.dets) true
          ((triggerUpdate cfg inp.dets st.per_class_consecutive_frames
              st.suppressed_classes).2.filter
            fun cid => ¬ (0 ≤ cid ∧ cid ∈ st.suppressed_classes)) 0
          ⟨true, inp.now_tp + cfg.record_seconds,
           (triggerUpdate cfg inp.dets st.per_class_consecutive_frames
             st.suppressed_classes).1,
           segBase cfg ch inp.timestr (resolveType cfg.type_cfg inp.dets) ++ ".mp4",
           [], []⟩).1,
       ⟨(addEventsGo cfg ch inp.timestr inp.dtstr
          (segBase cfg ch inp.timestr (resolveType cfg.type_cfg inp.dets))
          (resolveType cfg.type_cfg inp.dets) true
          ((triggerUpdate cfg inp.dets st.per_class_consecutive_frames
              st.suppressed_classes).2.filter
            fun cid => ¬ (0 ≤ cid ∧ cid ∈ st.suppressed_classes)) 0
          ⟨true, inp.now_tp + cfg.record_seconds,
           (triggerUpdate cfg inp.dets st.per_class_consecutive_frames
             st.suppressed_classes).1,
           segBase cfg ch inp.timestr (resolveType cfg.type_cfg inp.dets) ++ ".mp4",
           [], []⟩).2, [], []⟩) := by
    simp only [stepTrigger]
    rw [if_neg hn, if_pos hrec, if_pos hok]
  constructor
  · rw [step_path_eq, hokk]
    rw [(addEventsGo_fields cfg ch inp.timestr inp.dtstr _ _ _ _ _ _).2.2.1]
    rw [segBase_eq cfg ch inp.timestr _ hsd hsl]
  · intro p hp
    rw [step_snapshots_eq, hokk] at hp
    rcases addEventsGo_snapshots cfg ch inp.timestr inp.dtstr _ _ true _ 0 _ p hp with
      h | ⟨cid, hcid, hcp⟩
    · left
      rw [h, segBase_eq cfg ch inp.timestr _ hsd hsl]
    · right
      refine ⟨cid, List.mem_of_mem_filter hcid, ?_⟩
      rw [hcp, clsImgPath_eq cfg ch inp.timestr cid _ hsd hsl]

/-- C7 witness: the amended path shapes at the concrete session-opening frame
on channel 3. -/
theorem c7_storage_layout_witness :
    (step sampleCfg 3 initChannelState sampleOpen).1.pending_video_path =
      sampleCfg.save_dir ++ "/" ++ ("ch_" ++ toString (3 : Int)) ++ "/" ++
        (sampleOpen.timestr ++ "_type" ++
          toString (resolveType sampleCfg.type_cfg sampleOpen.dets)) ++ ".mp4" :=
  (c7_storage_layout sampleCfg 3 initChannelState sampleOpen
    (by decide) (by decide) rfl rfl (by decide)).1

/-- C9: Session finalize clears exactly the pending-event list and the
suppressed-class set: the per-class counters (and the stored segment path and
deadline) are untouched, and in a concrete two-frame run the counters keep
their values across the finalize. -/
theorem c9_finalize_keeps_counters :
    (∀ st : ChannelState,
      (finalizeSession st).1.pending_events = [] ∧
      (finalizeSession st).1.suppressed_classes = [] ∧
      (finalizeSession st).1.per_class_consecutive_frames = st.per_class_consecutive_frames ∧
      (finalizeSession st).1.pending_video_path = st.pending_video_path ∧
      (finalizeSession st).1.record_end_tp = st.record_end_tp) ∧
    runFrames sampleCfg 3 [sampleOpen, sampleSecond] =
      ⟨false, 5, [(1, 2), (2, 0)], "/data/ch_3/20250101_000000_type1.mp4", [], []⟩ := by
  constructor
  · intro st
    simp only [finalizeSession]
    split <;> exact ⟨rfl, rfl, rfl, rfl, rfl⟩
  · decide

/-- C2: Per-class hit counting is strictly consecutive: every tracked class
(filter classes when the filter is non-empty, else any class, whose counter
entries are the classes seen) absent in the current frame has its counter at
zero after the frame, so any gap restarts accumulation; and with threshold 3
for class 5 and presence pattern present, present, absent, present, present,
present, class 5 newly fires exactly at frame 6. -/
theorem c2_strict_consecutive :
    (∀ (cfg : SVConfig) (dets : List (Option Det)) (m : List (Int × Nat)) (sup : List Int)
       (cid : Int),
       (cfg.trigger_classes = [] ∨ cid ∈ cfg.trigger_classes) →
       cid ∉ frameClassIds cfg dets →
       lookupCnt (triggerUpdate cfg dets m sup).1 cid = 0) ∧
    newlyTrace ⟨"/data", 10, [], 1, [(5, 3)], ⟨none, false, []⟩⟩
        [[some ⟨5⟩], [some ⟨5⟩], [], [some ⟨5⟩], [some ⟨5⟩], [some ⟨5⟩]] =
      [[], [], [], [], [], [5]] := by
  refine ⟨?_, by decide⟩
  intro cfg dets m sup cid h1 h2
  by_cases hT : hasTargetB cfg dets = true
  · simp only [triggerUpdate, if_pos hT]
    exact lookupCnt_resetAbsent cfg (frameClassIds cfg dets) cid h1 h2 _
  · simp only [triggerUpdate, if_neg hT]
    by_cases he : cfg.trigger_classes = []
    · simp [resetNoTarget, he, lookupCnt, lookupA]
    · rcases h1 with h1 | h1
      · exact absurd h1 he
      · simp only [resetNoTarget, if_pos (by simpa using he)]
        exact lookupCnt_setZeroFold_mem cid cfg.trigger_classes m h1

/-- C2 witness: a class with an existing counter, absent from a frame holding
only another class, is reset to zero. -/
theorem c2_strict_consecutive_witness :
    lookupCnt
      (triggerUpdate ⟨"/data", 10, [], 1, [(5, 3)], ⟨none, false, []⟩⟩
        [some ⟨1⟩] [(7, 5)] []).1 7 = 0 :=
  c2_strict_consecutive.1 ⟨"/data", 10, [], 1, [(5, 3)], ⟨none, false, []⟩⟩
    [some ⟨1⟩] [(7, 5)] [] 7 (Or.inl rfl) (by decide)

/-- C10: When the configured server_url is missing or does not parse as
scheme://host[:port]/path, initialization still succeeds (given an object
configuration with save_dir present), the parsed endpoint stays absent, and
every subsequent alarm post is a no-op sending no message. -/
theorem c10_unparseable_server_url :
    (∀ cfg : RawConfig, cfg.is_object = true → cfg.save_dir.isSome = true →
       parseUrl (cfg.server_url.getD "") = none →
       initInternal cfg = (ErrorCode.SUCCESS, none)) ∧
    parseUrl "" = none ∧
    (∀ (proto : ProtoConfig) (bfu sd img vid dt : String) (ty : Int),
       postAlarm none proto bfu sd img vid dt ty = none) := by
  refine ⟨?_, by decide, ?_⟩
  · intro cfg h1 h2 hp
    obtain ⟨d, hd⟩ := Option.isSome_iff_exists.mp h2
    simp [initInternal, h1, hd, hp]
  · intro proto bfu sd img vid dt ty
    rfl

/-- C10 witness: a concrete object configuration with an unparseable URL. -/
theorem c10_unparseable_server_url_witness :
    initInternal ⟨true, some "notaurl", some "/data"⟩ = (ErrorCode.SUCCESS, none) :=
  c10_unparseable_server_url.1 ⟨true, some "notaurl", some "/data"⟩ rfl rfl (by decide)

end SaveVideoModel
